import Mathlib

/-!
Verification of the thread-pool task executor of this repository
(`src/thread-pool/inc/threadpool.h`, `src/thread-pool/main.cpp`).

The pool is embedded shallowly as a transition system:

* a submitted task, after `execute` has bound the callable to its
  arguments (`std::apply(std::move(_f), std::move(_fargs))` inside the
  `packaged_task`), is a thunk `Unit → Except String α`; an exception
  thrown by the callable is an `Except.error`;
* the shared state of the `packaged_task` / `future` pair (the Result
  Slot) is a `SlotState`: `pending` until the worker has run the task,
  then `value v` or `error e` — `std::packaged_task` stores the thrown
  exception instead of propagating it, and `future::get` re-raises it;
* `std::queue<_task_ptr> _tasks` is the list `queue` of task ids
  (head = front of the queue);
* each worker thread of `_threads` is a `WState`;
* `bool _stop_threads` is the field `stop`.

The bodies of `thread_pool::thread_pool` and `thread_pool::~thread_pool`
are declared in the header but not defined anywhere under `src/`; where a
claim depends on them the definitions below are modelled from the spec
and say so in their doc comment.
-/

namespace ThreadPool

/-- State of one worker thread (§3 of the spec: `WAITING`, `RUNNING`,
`TERMINATED`). `running t` carries the id of the task being executed. -/
inductive WState where
  | waiting
  | running (t : Nat)
  | terminated
deriving DecidableEq, Repr

/-- `true` exactly on `running _`. -/
def WState.isRunning : WState → Bool
  | .running _ => true
  | _ => false

/-- The Result Slot: the shared state of the `packaged_task` created in
`thread_pool::execute` and of the `future` returned to the caller.
An error payload is the `what()` string of the stored exception. -/
inductive SlotState (α : Type) where
  | pending
  | value (v : α)
  | error (e : String)
deriving DecidableEq, Repr

/-- Invoking the `packaged_task`: run the bound thunk; a thrown
exception is caught and stored in the shared state, a normal return
stores the value. -/
def outcomeOf {α : Type} (f : Unit → Except String α) : SlotState α :=
  match f () with
  | .ok v => .value v
  | .error e => .error e

/-- Global state of one `thread_pool` object together with the futures
handed out by `execute`. Task ids are indices into `tasks`;
`slots t` is task `t`'s Result Slot; `startedBy t` records which worker
(if any) dequeued task `t`; `queue` is `_tasks` (head = front);
`workers` is `_threads`; `stop` is `_stop_threads`. -/
structure PState (α : Type) where
  tasks : List (Unit → Except String α)
  slots : List (SlotState α)
  startedBy : List (Option Nat)
  queue : List Nat
  workers : List WState
  stop : Bool

/-- `thread_pool::execute(F&&, Args&&...)`, translated from
`threadpool.h` lines 70–95: build the `packaged_task` (here: the thunk
`f`), take its future (here: the new task id, with a fresh `pending`
slot), lock the queue, `_tasks.emplace(...)` at the back, unlock,
`notify_one`, and return the future. Note the body consults neither
`_stop_threads` nor the workers: it enqueues unconditionally. -/
def execute {α : Type} (s : PState α) (f : Unit → Except String α) :
    PState α × Nat :=
  ({ s with
      tasks := s.tasks ++ [f]
      slots := s.slots ++ [.pending]
      startedBy := s.startedBy ++ [none]
      queue := s.queue ++ [s.tasks.length] },
   s.tasks.length)

/-- `future::get` on the handle of task `t`: `none` while the slot is
still `pending` (the caller blocks), otherwise the stored value, or the
stored exception re-raised. -/
def getResult {α : Type} (s : PState α) (t : Nat) : Option (Except String α) :=
  match s.slots[t]? with
  | some (.value v) => some (Except.ok v)
  | some (.error e) => some (Except.error e)
  | _ => none

/-- Pool state right after a constructor run that spawned `n` workers:
empty queue, no tasks yet, `n` waiting workers, stop flag clear. -/
def init (α : Type) (n : Nat) : PState α :=
  { tasks := []
    slots := []
    startedBy := []
    queue := []
    workers := List.replicate n .waiting
    stop := false }

/-- Effect of a worker `i` popping the front task `t` of the queue:
the worker becomes `running t`, the head is removed, and `t` is recorded
as started by `i`. -/
def startSt {α : Type} (s : PState α) (i t : Nat) : PState α :=
  { s with
      workers := s.workers.set i (.running t)
      queue := s.queue.tail
      startedBy := s.startedBy.set t (some i) }

/-- Effect of worker `i` finishing task `t` whose thunk is `f`: the
slot of `t` receives the task's outcome (value or captured exception)
and the worker goes back to waiting. -/
def finishSt {α : Type} (s : PState α) (i t : Nat)
    (f : Unit → Except String α) : PState α :=
  { s with
      workers := s.workers.set i .waiting
      slots := s.slots.set t (outcomeOf f) }

/-- Interleaving semantics of the pool. `submit` is a caller running
`execute`; `start` is a worker's `pop` succeeding (it requires the
worker to be `WAITING` and takes the head of the FIFO queue, per §4.2 of
the spec — the worker-loop body is not under `src/`, this constructor is
modelled from the spec); `finish` runs the dequeued `packaged_task`;
`signalStop` is the stop flag being set; `terminate` is a worker leaving
its loop when the stop flag is up and the queue is empty. -/
inductive Step {α : Type} : PState α → PState α → Prop
  | submit (s : PState α) (f : Unit → Except String α) :
      Step s (execute s f).1
  | start (s : PState α) (i t : Nat)
      (hw : s.workers[i]? = some .waiting)
      (hq : s.queue.head? = some t) :
      Step s (startSt s i t)
  | finish (s : PState α) (i t : Nat) (f : Unit → Except String α)
      (hw : s.workers[i]? = some (.running t))
      (hf : s.tasks[t]? = some f) :
      Step s (finishSt s i t f)
  | signalStop (s : PState α) :
      Step s { s with stop := true }
  | terminate (s : PState α) (i : Nat)
      (hw : s.workers[i]? = some .waiting)
      (hs : s.stop = true)
      (hq : s.queue = []) :
      Step s { s with workers := s.workers.set i .terminated }

/-- States reachable from a freshly constructed pool with `n` workers. -/
def Reachable (α : Type) (n : Nat) (s : PState α) : Prop :=
  Relation.ReflTransGen Step (init α n) s

/-- Every worker of the pool has left its loop. -/
def allTerminated {α : Type} (s : PState α) : Prop :=
  ∀ w ∈ s.workers, w = WState.terminated

/-- Invariant of the pool, preserved by every `Step`. -/
structure Inv {α : Type} (s : PState α) : Prop where
  len_slots : s.slots.length = s.tasks.length
  len_started : s.startedBy.length = s.tasks.length
  queue_sorted : s.queue.Chain' (· < ·)
  queue_lt : ∀ t ∈ s.queue, t < s.tasks.length
  queue_unstarted : ∀ t ∈ s.queue, s.startedBy[t]? = some none
  running_started : ∀ i t, s.workers[i]? = some (WState.running t) →
    s.startedBy[t]? = some (some i)
  slot_ok : ∀ (t : Nat) (f : Unit → Except String α), s.tasks[t]? = some f →
    s.slots[t]? = some (SlotState.pending : SlotState α) ∨
      s.slots[t]? = some (outcomeOf f)
  queue_or_started : ∀ t, t < s.tasks.length →
    t ∈ s.queue ∨ ∃ i, s.startedBy[t]? = some (some i)

/-! ### Pool lifecycle (constructor / destructor)

`thread_pool::thread_pool` and `thread_pool::~thread_pool` are declared
in `threadpool.h` (lines 13–14) but their bodies are not under `src/`;
the following definitions model them from the spec. -/

/-- One `std::thread` owned by `_threads`, with enough bookkeeping to
state the join discipline: its worker state, whether it has been
joined, and how many times `join()` has been called on it. -/
structure OwnedThread where
  state : WState
  joined : Bool
  joinCount : Nat
deriving DecidableEq, Repr

/-- A freshly spawned worker thread: waiting, not yet joined. -/
def newThread : OwnedThread :=
  { state := WState.waiting, joined := false, joinCount := 0 }

/-- Modelled from the spec: joining one worker thread — blocks until
the worker's loop exits (`TERMINATED`), then joins it; a thread that is
already joined is left alone (`joinable()` guard), so `join()` is never
called twice on the same thread. -/
def joinThread (th : OwnedThread) : OwnedThread :=
  if th.joined then th
  else { state := WState.terminated, joined := true,
         joinCount := th.joinCount + 1 }

/-- The members of `thread_pool` that its destructor manipulates:
`_threads` and `_stop_threads`. -/
structure PoolCtl where
  threads : List OwnedThread
  stopFlag : Bool
deriving DecidableEq, Repr

/-- Modelled from the spec: `shutdown()` / `~thread_pool` — sets the
stop flag via the queue, wakes every worker, and joins every worker
thread, blocking until all have reached `TERMINATED`; a thread already
joined by a previous shutdown is skipped. -/
def shutdown (p : PoolCtl) : PoolCtl :=
  { threads := p.threads.map joinThread, stopFlag := true }

/-- Modelled from the spec: the body of `thread_pool::thread_pool`
spawns one worker thread per index `0, …, count-1` (exactly
`thread_count` workers). `spawnOk i` tells whether creating the `i`-th
thread succeeds; on the first failure every already-started thread is
joined and a `ConstructionError` is reported, carrying here the list of
threads that were joined so the clean-up can be stated. `i` is the next
index to spawn and `started` accumulates the threads created so far. -/
def constructAux (spawnOk : Nat → Bool) (i : Nat) :
    Nat → List OwnedThread → Except (List OwnedThread) (List OwnedThread)
  | 0, started => Except.ok started
  | n + 1, started =>
      if spawnOk i then
        constructAux spawnOk (i + 1) n (started ++ [newThread])
      else
        Except.error (started.map joinThread)

/-- Modelled from the spec: `thread_pool::thread_pool(count)` under the
spawn oracle `spawnOk`: `ok` with the spawned workers, or `error` with
the threads that were joined before the failure was reported. -/
def construct (spawnOk : Nat → Bool) (count : Nat) :
    Except (List OwnedThread) (List OwnedThread) :=
  constructAux spawnOk 0 count []

/-- The declared default argument of the constructor, translated from
`threadpool.h` line 13:
`thread_pool(size_t thread_count = std::thread::hardware_concurrency())`.
The default is the platform's reported hardware concurrency,
unmodified — in particular not clamped to a minimum. -/
def defaultThreadCount (hardwareConcurrency : Nat) : Nat :=
  hardwareConcurrency

/-! ### The task queue in isolation

`std::queue<_task_ptr> _tasks`: `emplace` appends at the back
(`threadpool.h` lines 87–88), `front`/`pop` read and remove the head. -/

/-- `std::queue`, front of the queue at the head of `items`. -/
structure StdQueue (α : Type) where
  items : List α
deriving DecidableEq, Repr

/-- `_tasks.emplace(x)`: append at the back. -/
def StdQueue.emplace {α : Type} (q : StdQueue α) (x : α) : StdQueue α :=
  ⟨q.items ++ [x]⟩

/-- `_tasks.front()`. -/
def StdQueue.front? {α : Type} (q : StdQueue α) : Option α :=
  q.items.head?

/-- `_tasks.pop()`: remove the head. -/
def StdQueue.popFront {α : Type} (q : StdQueue α) : StdQueue α :=
  ⟨q.items.tail⟩

/-- One interaction with the queue: a submitter pushing, or a worker
popping (`front` then `pop`). -/
inductive QueueOp (α : Type) where
  | push (v : α)
  | pop
deriving DecidableEq, Repr

/-- Run a sequence of queue operations from queue `q`, accumulating the
dequeued elements in `outs`; a pop of an empty queue dequeues nothing
(the worker keeps waiting on the condition variable). -/
def runOps {α : Type} (q : StdQueue α) (outs : List α) :
    List (QueueOp α) → StdQueue α × List α
  | [] => (q, outs)
  | QueueOp.push v :: rest => runOps (q.emplace v) outs rest
  | QueueOp.pop :: rest =>
      match q.front? with
      | none => runOps q outs rest
      | some x => runOps q.popFront (outs ++ [x]) rest

/-- The values pushed by a sequence of operations, in order. -/
def pushedValues {α : Type} (ops : List (QueueOp α)) : List α :=
  ops.filterMap fun op =>
    match op with
    | QueueOp.push v => some v
    | QueueOp.pop => none

/-! ### Value categories and the capture list of `execute`

`thread_pool::execute` builds (lines 74–79)
`[_f = std::move(function), _fargs = std::make_tuple(std::forward<Args>(args)...)]`.
To state what this does to the caller's objects we track, for each
C++ object, its payload and whether it has been moved from, and for
each argument expression the value category its forwarding reference
was deduced at. -/

/-- Value category of the expression the caller passed. -/
inductive ValueCategory where
  | lvalue
  | rvalue
deriving DecidableEq, Repr

/-- A C++ object as seen by the caller: payload plus moved-from flag. -/
structure CppObject (α : Type) where
  val : α
  movedFrom : Bool
deriving DecidableEq, Repr

/-- Initialization from `std::move(x)`: `std::move` casts to rvalue
unconditionally, so the new object steals the payload and `x` is left
moved-from — regardless of the value category `x` was bound at.
Returns (initialized object, caller's object afterwards). -/
def stdMoveInit {α : Type} (x : CppObject α) : CppObject α × CppObject α :=
  (⟨x.val, false⟩, { x with movedFrom := true })

/-- Initialization of a `std::make_tuple` element from
`std::forward<T>(x)`: `forward` preserves the deduced value category,
and `make_tuple` stores a decayed copy — so an lvalue argument is
copied (caller's object untouched) and an rvalue argument is moved.
Returns (tuple element, caller's object afterwards). -/
def forwardInit {α : Type} (cat : ValueCategory) (x : CppObject α) :
    CppObject α × CppObject α :=
  match cat with
  | ValueCategory.lvalue => (⟨x.val, false⟩, x)
  | ValueCategory.rvalue => (⟨x.val, false⟩, { x with movedFrom := true })

/-- Outcome of evaluating the capture list of the lambda in `execute`
on the caller's callable `f` (bound at category `fcat`) and argument
objects `args` (each with the category it was passed at). -/
structure CaptureResult (F A : Type) where
  capturedF : CppObject F
  capturedArgs : List (CppObject A)
  callerF : CppObject F
  callerArgs : List (CppObject A)
deriving DecidableEq, Repr

/-- The capture list
`[_f = std::move(function), _fargs = std::make_tuple(std::forward<Args>(args)...)]`
of `thread_pool::execute` (`threadpool.h` lines 75–77). Note `fcat` is
not consulted: the code moves `function` unconditionally. -/
def executeCapture {F A : Type} (_fcat : ValueCategory) (f : CppObject F)
    (args : List (ValueCategory × CppObject A)) : CaptureResult F A :=
  { capturedF := (stdMoveInit f).1
    callerF := (stdMoveInit f).2
    capturedArgs := args.map fun p => (forwardInit p.1 p.2).1
    callerArgs := args.map fun p => (forwardInit p.1 p.2).2 }

/-! ### Concrete scenarios

`src/thread-pool/main.cpp`: a default pool (2 workers in the spec's
scenario), four submissions of `multiply(x, 2)` for `x ∈ {2,4,7,13}`. -/

/-- `int multiply(int x, int y) { return x * y; }` from `main.cpp`. -/
def multiply (x y : Int) : Int := x * y

/-- The bound thunk `execute` builds for `multiply(x, 2)`. -/
def mulThunk (x : Int) : Unit → Except String Int :=
  fun _ => Except.ok (multiply x 2)

/-- A task whose callable throws. -/
def errThunk : Unit → Except String Int :=
  fun _ => Except.error "boom"

/-- A trivial task returning 0. -/
def zeroThunk : Unit → Except String Int :=
  fun _ => Except.ok 0

/-- The scenario run of `main.cpp` on a 2-worker pool: the four
submissions, then the steps of the two workers, in one interleaving. -/
def run0 : PState Int := init Int 2

/-- After `execute(multiply, 2, 2)`. -/
def run1 : PState Int := (execute run0 (mulThunk 2)).1

/-- After `execute(multiply, 4, 2)`. -/
def run2 : PState Int := (execute run1 (mulThunk 4)).1

/-- After `execute(multiply, 7, 2)`. -/
def run3 : PState Int := (execute run2 (mulThunk 7)).1

/-- After `execute(multiply, 13, 2)`. -/
def run4 : PState Int := (execute run3 (mulThunk 13)).1

/-- Worker 0 dequeues task 0. -/
def run5 : PState Int := startSt run4 0 0

/-- Worker 0 finishes task 0. -/
def run6 : PState Int := finishSt run5 0 0 (mulThunk 2)

/-- Worker 1 dequeues task 1. -/
def run7 : PState Int := startSt run6 1 1

/-- Worker 1 finishes task 1. -/
def run8 : PState Int := finishSt run7 1 1 (mulThunk 4)

/-- Worker 0 dequeues task 2. -/
def run9 : PState Int := startSt run8 0 2

/-- Worker 0 finishes task 2. -/
def run10 : PState Int := finishSt run9 0 2 (mulThunk 7)

/-- Worker 1 dequeues task 3. -/
def run11 : PState Int := startSt run10 1 3

/-- Worker 1 finishes task 3: all four futures are ready. -/
def run12 : PState Int := finishSt run11 1 3 (mulThunk 13)

/-- An erroring task on a 1-worker pool: after submission. -/
def erun1 : PState Int := (execute (init Int 1) errThunk).1

/-- The single worker has dequeued the erroring task. -/
def erun2 : PState Int := startSt erun1 0 0

/-- A pool on which shutdown has completed: stop flag set, the single
worker terminated, one never-started task (id 0) still queued. -/
def sClosed : PState Int :=
  { tasks := [zeroThunk]
    slots := [SlotState.pending]
    startedBy := [none]
    queue := [0]
    workers := [WState.terminated]
    stop := true }

/-! ### Invariant preservation -/

theorem inv_init (α : Type) (n : Nat) : Inv (init α n) := by
  refine ⟨rfl, rfl, List.chain'_nil, ?_, ?_, ?_, ?_, ?_⟩
  · intro t ht; simp [init] at ht
  · intro t ht; simp [init] at ht
  · intro i t hw
    simp only [init, List.getElem?_replicate] at hw
    split at hw <;> simp_all
  · intro t f hf; simp [init] at hf
  · intro t ht; simp [init] at ht

theorem inv_step {α : Type} {s s' : PState α} (h : Step s s') (hI : Inv s) :
    Inv s' := by
  cases h with
  | submit f =>
      refine ⟨?_, ?_, ?_, ?_, ?_, ?_, ?_, ?_⟩
      · simp [execute, hI.len_slots]
      · simp [execute, hI.len_started]
      · simp only [execute]
        refine List.chain'_append.2 ⟨hI.queue_sorted, List.chain'_singleton _, ?_⟩
        intro x hx y hy
        simp only [List.head?_cons, Option.mem_def, Option.some.injEq] at hy
        subst hy
        rcases List.getLast?_eq_some_iff.1 hx with ⟨ys, hys⟩
        exact hI.queue_lt x (by simp [hys])
      · intro t ht
        simp only [execute, List.mem_append, List.mem_singleton] at ht
        simp only [execute, List.length_append, List.length_cons,
          List.length_nil]
        rcases ht with ht | rfl
        · exact Nat.lt_succ_of_lt (hI.queue_lt t ht)
        · exact Nat.lt_succ_self _
      · intro t ht
        simp only [execute, List.mem_append, List.mem_singleton] at ht
        simp only [execute]
        rcases ht with ht | rfl
        · have hlt : t < s.startedBy.length := by
            rw [hI.len_started]; exact hI.queue_lt t ht
          rw [List.getElem?_append_left hlt]
          exact hI.queue_unstarted t ht
        · rw [← hI.len_started, List.getElem?_concat_length]
      · intro i t hw
        simp only [execute] at hw ⊢
        have h0 := hI.running_started i t hw
        have hlt : t < s.startedBy.length := (List.getElem?_eq_some_iff.1 h0).1
        rw [List.getElem?_append_left hlt]
        exact h0
      · intro t g hg
        simp only [execute] at hg ⊢
        by_cases hlt : t < s.tasks.length
        · rw [List.getElem?_append_left hlt] at hg
          have hs2 : t < s.slots.length := by rw [hI.len_slots]; exact hlt
          rcases hI.slot_ok t g hg with h1 | h1
          · left; rw [List.getElem?_append_left hs2]; exact h1
          · right; rw [List.getElem?_append_left hs2]; exact h1
        · have hlen : t < s.tasks.length + 1 := by
            have := (List.getElem?_eq_some_iff.1 hg).1
            simpa using this
          have ht : t = s.tasks.length := by omega
          subst ht
          left
          rw [← hI.len_slots, List.getElem?_concat_length]
      · intro t ht
        simp only [execute, List.length_append, List.length_cons,
          List.length_nil] at ht
        simp only [execute]
        by_cases hlt : t < s.tasks.length
        · rcases hI.queue_or_started t hlt with hq | ⟨i, hi⟩
          · exact Or.inl (List.mem_append_left _ hq)
          · refine Or.inr ⟨i, ?_⟩
            have hl2 : t < s.startedBy.length :=
              (List.getElem?_eq_some_iff.1 hi).1
            rw [List.getElem?_append_left hl2]
            exact hi
        · have ht2 : t = s.tasks.length := by omega
          subst ht2
          exact Or.inl (by simp)
  | start i t hw hq =>
      obtain ⟨rest, hqeq⟩ : ∃ rest, s.queue = t :: rest := by
        cases hq2 : s.queue with
        | nil => rw [hq2] at hq; simp at hq
        | cons a r =>
            rw [hq2] at hq
            simp only [List.head?_cons, Option.some.injEq] at hq
            exact ⟨r, by rw [hq]⟩
      have htq : t ∈ s.queue := by rw [hqeq]; simp
      have htlt : t < s.tasks.length := hI.queue_lt t htq
      have htsb : t < s.startedBy.length := by
        rw [hI.len_started]; exact htlt
      have hiw : i < s.workers.length := (List.getElem?_eq_some_iff.1 hw).1
      have hpair : ∀ u ∈ rest, t < u := by
        have hp := List.chain'_iff_pairwise.1 hI.queue_sorted
        rw [hqeq] at hp
        exact (List.pairwise_cons.1 hp).1
      have htnone : s.startedBy[t]? = some none := hI.queue_unstarted t htq
      refine ⟨?_, ?_, ?_, ?_, ?_, ?_, ?_, ?_⟩
      · simp [startSt, hI.len_slots]
      · simp [startSt, hI.len_started]
      · simp only [startSt, hqeq, List.tail_cons]
        have hc := hI.queue_sorted
        rw [hqeq] at hc
        exact hc.tail
      · intro u hu
        simp only [startSt, hqeq, List.tail_cons] at hu ⊢
        exact hI.queue_lt u (by rw [hqeq]; exact List.mem_cons_of_mem _ hu)
      · intro u hu
        simp only [startSt, hqeq, List.tail_cons] at hu ⊢
        have hne : t ≠ u := Nat.ne_of_lt (hpair u hu)
        rw [List.getElem?_set_ne hne]
        exact hI.queue_unstarted u (by rw [hqeq]; exact List.mem_cons_of_mem _ hu)
      · intro j u hj
        simp only [startSt] at hj ⊢
        by_cases hij : j = i
        · subst hij
          rw [List.getElem?_set_self hiw] at hj
          simp only [Option.some.injEq, WState.running.injEq] at hj
          subst hj
          rw [List.getElem?_set_self htsb]
        · rw [List.getElem?_set_ne (Ne.symm hij)] at hj
          have h0 := hI.running_started j u hj
          have hune : t ≠ u := by
            intro hh
            subst hh
            rw [htnone] at h0
            simp at h0
          rw [List.getElem?_set_ne hune]
          exact h0
      · intro u g hg
        simp only [startSt] at hg ⊢
        exact hI.slot_ok u g hg
      · intro u hu
        simp only [startSt] at hu ⊢
        simp only [hqeq, List.tail_cons]
        rcases hI.queue_or_started u hu with hq2 | ⟨j, hj⟩
        · rw [hqeq] at hq2
          rcases List.mem_cons.1 hq2 with rfl | hq3
          · right; exact ⟨i, by rw [List.getElem?_set_self htsb]⟩
          · left; exact hq3
        · right
          refine ⟨j, ?_⟩
          have hune : t ≠ u := by
            intro hh
            subst hh
            rw [htnone] at hj
            simp at hj
          rw [List.getElem?_set_ne hune]
          exact hj
  | finish i t f hw hf =>
      have hiw : i < s.workers.length := (List.getElem?_eq_some_iff.1 hw).1
      have htsb : s.startedBy[t]? = some (some i) := hI.running_started i t hw
      have htlt : t < s.startedBy.length := (List.getElem?_eq_some_iff.1 htsb).1
      have htslots : t < s.slots.length := by
        rw [hI.len_slots, ← hI.len_started]
        exact htlt
      refine ⟨?_, ?_, ?_, ?_, ?_, ?_, ?_, ?_⟩
      · simp [finishSt, hI.len_slots]
      · simp [finishSt, hI.len_started]
      · simp only [finishSt]; exact hI.queue_sorted
      · intro u hu
        simp only [finishSt] at hu ⊢
        exact hI.queue_lt u hu
      · intro u hu
        simp only [finishSt] at hu ⊢
        exact hI.queue_unstarted u hu
      · intro j u hj
        simp only [finishSt] at hj ⊢
        by_cases hij : j = i
        · subst hij
          rw [List.getElem?_set_self hiw] at hj
          simp at hj
        · rw [List.getElem?_set_ne (Ne.symm hij)] at hj
          exact hI.running_started j u hj
      · intro u g hg
        simp only [finishSt] at hg ⊢
        by_cases hut : u = t
        · subst hut
          rw [hf] at hg
          simp only [Option.some.injEq] at hg
          subst hg
          right
          rw [List.getElem?_set_self htslots]
        · have hne : t ≠ u := fun hh => hut hh.symm
          rw [List.getElem?_set_ne hne]
          exact hI.slot_ok u g hg
      · intro u hu
        simp only [finishSt] at hu ⊢
        exact hI.queue_or_started u hu
  | signalStop =>
      exact ⟨hI.len_slots, hI.len_started, hI.queue_sorted, hI.queue_lt,
        hI.queue_unstarted, hI.running_started, hI.slot_ok,
        hI.queue_or_started⟩
  | terminate i hw hs2 hq2 =>
      refine ⟨hI.len_slots, hI.len_started, hI.queue_sorted, hI.queue_lt,
        hI.queue_unstarted, ?_, hI.slot_ok, hI.queue_or_started⟩
      intro j u hj
      have hiw : i < s.workers.length := (List.getElem?_eq_some_iff.1 hw).1
      by_cases hij : j = i
      · subst hij
        rw [List.getElem?_set_self hiw] at hj
        simp at hj
      · rw [List.getElem?_set_ne (Ne.symm hij)] at hj
        exact hI.running_started j u hj

theorem inv_reachable {α : Type} {n : Nat} {s : PState α}
    (h : Reachable α n s) : Inv s := by
  induction h with
  | refl => exact inv_init α n
  | tail _ hstep ih => exact inv_step hstep ih

theorem step_workers_length {α : Type} {s s' : PState α} (h : Step s s') :
    s'.workers.length = s.workers.length := by
  cases h <;> simp [execute, startSt, finishSt]

theorem reachable_workers_length {α : Type} {n : Nat} {s : PState α}
    (h : Reachable α n s) : s.workers.length = n := by
  induction h with
  | refl => simp [init]
  | tail _ hstep ih => rw [step_workers_length hstep, ih]

theorem started_stable {α : Type} {s s' : PState α} (hI : Inv s)
    (h : Step s s') (t i : Nat) (hst : s.startedBy[t]? = some (some i)) :
    s'.startedBy[t]? = some (some i) := by
  cases h with
  | submit f =>
      simp only [execute]
      rw [List.getElem?_append_left (List.getElem?_eq_some_iff.1 hst).1]
      exact hst
  | start j u hw hq =>
      simp only [startSt]
      have hu : u ∈ s.queue := List.mem_of_mem_head? hq
      have hun : s.startedBy[u]? = some none := hI.queue_unstarted u hu
      have hne : u ≠ t := by
        intro hh
        subst hh
        rw [hun] at hst
        simp at hst
      rw [List.getElem?_set_ne hne]
      exact hst
  | finish j u f hw hf => exact hst
  | signalStop => exact hst
  | terminate j hw hs2 hq2 => exact hst

theorem allTerminated_step {α : Type} {s s' : PState α} (h : Step s s')
    (hT : allTerminated s) :
    allTerminated s' ∧
      ∀ t : Nat, s.startedBy[t]? = some none →
        s'.startedBy[t]? = some none := by
  cases h with
  | submit f =>
      constructor
      · intro w hwmem
        simp only [execute] at hwmem
        exact hT w hwmem
      · intro t ht
        simp only [execute]
        rw [List.getElem?_append_left (List.getElem?_eq_some_iff.1 ht).1]
        exact ht
  | start i t hw hq =>
      exact absurd (hT _ (List.getElem?_mem hw)) (by simp)
  | finish i t f hw hf =>
      exact absurd (hT _ (List.getElem?_mem hw)) (by simp)
  | signalStop => exact ⟨hT, fun t ht => ht⟩
  | terminate i hw hs2 hq2 =>
      exact absurd (hT _ (List.getElem?_mem hw)) (by simp)

theorem allTerminated_steps {α : Type} {s s' : PState α}
    (h : Relation.ReflTransGen Step s s') (hT : allTerminated s) :
    allTerminated s' ∧
      ∀ t : Nat, s.startedBy[t]? = some none →
        s'.startedBy[t]? = some none := by
  induction h with
  | refl => exact ⟨hT, fun t ht => ht⟩
  | tail _ hstep ih =>
      rcases ih with ⟨ih1, ih2⟩
      rcases allTerminated_step hstep ih1 with ⟨h1, h2⟩
      exact ⟨h1, fun t ht => h2 t (ih2 t ht)⟩

theorem runOps_spec {α : Type} (ops : List (QueueOp α)) :
    ∀ (q : StdQueue α) (outs : List α),
      (runOps q outs ops).2 ++ (runOps q outs ops).1.items =
        outs ++ q.items ++ pushedValues ops := by
  induction ops with
  | nil => intro q outs; simp [runOps, pushedValues]
  | cons op rest ih =>
      intro q outs
      cases op with
      | push v =>
          simp only [runOps]
          rw [ih]
          simp [StdQueue.emplace, pushedValues]
      | pop =>
          rcases q with ⟨items⟩
          cases items with
          | nil =>
              simp only [runOps, StdQueue.front?, List.head?_nil]
              rw [ih]
              simp [pushedValues]
          | cons x xs =>
              simp only [runOps, StdQueue.front?, List.head?_cons,
                StdQueue.popFront, List.tail_cons]
              rw [ih]
              simp [pushedValues]

theorem constructAux_ok (spawnOk : Nat → Bool)
    (h : ∀ k, spawnOk k = true) :
    ∀ (n i : Nat) (started : List OwnedThread),
      constructAux spawnOk i n started =
        Except.ok (started ++ List.replicate n newThread) := by
  intro n
  induction n with
  | zero => intro i started; simp [constructAux]
  | succ m ih =>
      intro i started
      simp only [constructAux, h i, if_true]
      rw [ih]
      simp [List.replicate_succ]

theorem constructAux_fail (spawnOk : Nat → Bool) :
    ∀ (n i j : Nat) (started : List OwnedThread),
      i ≤ j → j < i + n → spawnOk j = false →
      (∀ k, i ≤ k → k < j → spawnOk k = true) →
      constructAux spawnOk i n started =
        Except.error
          ((started ++ List.replicate (j - i) newThread).map joinThread) := by
  intro n
  induction n with
  | zero =>
      intro i j started hij hjn hfail hmin
      exfalso
      omega
  | succ m ih =>
      intro i j started hij hjn hfail hmin
      by_cases hi : i = j
      · subst hi
        simp only [constructAux, hfail, Nat.sub_self, List.replicate_zero,
          List.append_nil]
        simp
      · have hij2 : i < j := lt_of_le_of_ne hij hi
        have hoki : spawnOk i = true := hmin i (le_refl i) hij2
        simp only [constructAux, hoki, if_true]
        rw [ih (i + 1) j (started ++ [newThread]) hij2 (by omega) hfail
          (fun k hk1 hk2 => hmin k (by omega) hk2)]
        have hsub : j - i = (j - (i + 1)) + 1 := by omega
        rw [hsub, List.replicate_succ]
        simp [List.append_assoc]

theorem reach_run4 : Reachable Int 2 run4 :=
  Relation.ReflTransGen.tail
    (Relation.ReflTransGen.tail
      (Relation.ReflTransGen.tail
        (Relation.ReflTransGen.tail Relation.ReflTransGen.refl
          (Step.submit run0 (mulThunk 2)))
        (Step.submit run1 (mulThunk 4)))
      (Step.submit run2 (mulThunk 7)))
    (Step.submit run3 (mulThunk 13))

theorem reach_run12 : Reachable Int 2 run12 := by
  have h5 := reach_run4.tail (Step.start run4 0 0 (by rfl) (by rfl))
  have h6 := h5.tail (Step.finish run5 0 0 (mulThunk 2) (by rfl) (by rfl))
  have h7 := h6.tail (Step.start run6 1 1 (by rfl) (by rfl))
  have h8 := h7.tail (Step.finish run7 1 1 (mulThunk 4) (by rfl) (by rfl))
  have h9 := h8.tail (Step.start run8 0 2 (by rfl) (by rfl))
  have h10 := h9.tail (Step.finish run9 0 2 (mulThunk 7) (by rfl) (by rfl))
  have h11 := h10.tail (Step.start run10 1 3 (by rfl) (by rfl))
  exact h11.tail (Step.finish run11 1 3 (mulThunk 13) (by rfl) (by rfl))

theorem reach_erun2 : Reachable Int 1 erun2 :=
  Relation.ReflTransGen.tail
    (Relation.ReflTransGen.single (Step.submit (init Int 1) errThunk))
    (Step.start erun1 0 0 (by rfl) (by rfl))

/-! ### The claims -/

/-- C1: for every callable `f` and arguments `a` submitted via
`execute`, `get()` on the returned future yields exactly the value the
bound thunk computes synchronously; in particular the `main.cpp`
scenario — four `multiply(x, 2)` tasks on a 2-worker pool — yields
`[4, 8, 14, 26]` in submission order regardless of the interleaving
(the first conjunct holds for every reachable state, hence for every
schedule of the workers). -/
theorem C1_get_equals_synchronous_result :
    (∀ (n : Nat) (s : PState Int), Reachable Int n s →
      ∀ (t : Nat) (f : Unit → Except String Int) (r : Except String Int),
        s.tasks[t]? = some f → getResult s t = some r → r = f ()) ∧
    (∀ s : PState Int, Reachable Int 2 s →
      s.tasks = [mulThunk 2, mulThunk 4, mulThunk 7, mulThunk 13] →
      (∀ t, t < 4 → getResult s t ≠ none) →
      [getResult s 0, getResult s 1, getResult s 2, getResult s 3] =
        [some (Except.ok 4), some (Except.ok 8),
         some (Except.ok 14), some (Except.ok 26)]) := by
  have main : ∀ (n : Nat) (s : PState Int), Reachable Int n s →
      ∀ (t : Nat) (f : Unit → Except String Int) (r : Except String Int),
        s.tasks[t]? = some f → getResult s t = some r → r = f () := by
    intro n s hr t f r hf hg
    have hI := inv_reachable hr
    rcases hI.slot_ok t f hf with h1 | h1
    · have hnone : getResult s t = none := by
        unfold getResult
        rw [h1]
      rw [hnone] at hg
      cases hg
    · rcases hfe : f () with e | v
      · have hslot : s.slots[t]? = some (SlotState.error e) := by
          rw [h1]
          simp [outcomeOf, hfe]
        have hv : getResult s t = some (Except.error e) := by
          unfold getResult
          rw [hslot]
        rw [hv] at hg
        simp only [Option.some.injEq] at hg
        exact hg.symm
      · have hslot : s.slots[t]? = some (SlotState.value v) := by
          rw [h1]
          simp [outcomeOf, hfe]
        have hv : getResult s t = some (Except.ok v) := by
          unfold getResult
          rw [hslot]
        rw [hv] at hg
        simp only [Option.some.injEq] at hg
        exact hg.symm
  refine ⟨main, ?_⟩
  intro s hr hts hdone
  rcases Option.ne_none_iff_exists'.1 (hdone 0 (by norm_num)) with ⟨r0, hr0⟩
  rcases Option.ne_none_iff_exists'.1 (hdone 1 (by norm_num)) with ⟨r1, hr1⟩
  rcases Option.ne_none_iff_exists'.1 (hdone 2 (by norm_num)) with ⟨r2, hr2⟩
  rcases Option.ne_none_iff_exists'.1 (hdone 3 (by norm_num)) with ⟨r3, hr3⟩
  have e0 := main 2 s hr 0 (mulThunk 2) r0 (by rw [hts]; rfl) hr0
  have e1 := main 2 s hr 1 (mulThunk 4) r1 (by rw [hts]; rfl) hr1
  have e2 := main 2 s hr 2 (mulThunk 7) r2 (by rw [hts]; rfl) hr2
  have e3 := main 2 s hr 3 (mulThunk 13) r3 (by rw [hts]; rfl) hr3
  rw [hr0, hr1, hr2, hr3, e0, e1, e2, e3]
  norm_num [mulThunk, multiply]

/-- C1 witness: the concrete interleaved run of the `main.cpp` scenario
reaches a state where the four futures hold `4, 8, 14, 26`. -/
theorem C1_witness :
    [getResult run12 0, getResult run12 1, getResult run12 2,
      getResult run12 3] =
    [some (Except.ok 4), some (Except.ok 8), some (Except.ok 14),
      some (Except.ok 26)] :=
  C1_get_equals_synchronous_result.2 run12 reach_run12 rfl (by
    intro t ht
    interval_cases t
    · exact ne_of_eq_of_ne (rfl : getResult run12 0 = some (Except.ok 4))
        (Option.some_ne_none _)
    · exact ne_of_eq_of_ne (rfl : getResult run12 1 = some (Except.ok 8))
        (Option.some_ne_none _)
    · exact ne_of_eq_of_ne (rfl : getResult run12 2 = some (Except.ok 14))
        (Option.some_ne_none _)
    · exact ne_of_eq_of_ne (rfl : getResult run12 3 = some (Except.ok 26))
        (Option.some_ne_none _))

/-- C2 counterexample: the body of `thread_pool::execute` never
consults `_stop_threads`. On a pool whose shutdown has completed
(`sClosed`: stop flag set, worker terminated), `execute` does not fail:
it grows the queue and the task list, contradicting the claim that the
call fails with a `PoolClosedError` and that the task is never
enqueued. -/
theorem C2_counterexample :
    sClosed.stop = true ∧
    (execute sClosed zeroThunk).1.queue ≠ sClosed.queue ∧
    (execute sClosed zeroThunk).1.tasks.length = sClosed.tasks.length + 1 := by
  refine ⟨rfl, ?_, rfl⟩
  simp [execute, sClosed]

/-- C2 amended: `execute` ignores the stop flag — a submission after
shutdown has been initiated is silently accepted and enqueued (no error
is reported and the stop flag is untouched); however, once every worker
has terminated, a task whose `startedBy` cell is still `none` is never
executed by any later step. -/
theorem C2_execute_after_shutdown_enqueues (s s' : PState Int)
    (f : Unit → Except String Int) (t : Nat) :
    ((execute s f).1.stop = s.stop ∧
     (execute s f).1.queue = s.queue ++ [s.tasks.length] ∧
     (execute s f).2 = s.tasks.length) ∧
    (allTerminated s →
      Relation.ReflTransGen Step s s' →
      s.startedBy[t]? = some none →
      s'.startedBy[t]? = some none) := by
  refine ⟨⟨rfl, rfl, rfl⟩, ?_⟩
  intro hT hsteps hnone
  exact (allTerminated_steps hsteps hT).2 t hnone

/-- C2 witness: submitting `zeroThunk` to the shut-down pool `sClosed`
is a step of the system, and the already-queued, never-started task 0
is still unstarted afterwards. -/
theorem C2_witness :
    (execute sClosed zeroThunk).1.startedBy[0]? = some none :=
  (C2_execute_after_shutdown_enqueues sClosed
      (execute sClosed zeroThunk).1 zeroThunk 0).2
    (by
      intro w hw
      simp only [sClosed, List.mem_singleton] at hw
      exact hw)
    (Relation.ReflTransGen.single (Step.submit sClosed zeroThunk))
    rfl

/-- C3: a task whose callable raises is finished by the worker running
it like any other task: the error is stored in that task's Result Slot,
`get()` on that handle re-raises exactly that error, the worker goes
back to `WAITING` (it does not die), and no other task's slot or
`get()` outcome changes. -/
theorem C3_task_error_captured (n : Nat) (s : PState Int) (i t : Nat)
    (f : Unit → Except String Int) (e : String)
    (hr : Reachable Int n s)
    (hw : s.workers[i]? = some (WState.running t))
    (hf : s.tasks[t]? = some f)
    (he : f () = Except.error e) :
    Step s (finishSt s i t f) ∧
    (finishSt s i t f).slots[t]? = some (SlotState.error e) ∧
    (finishSt s i t f).workers[i]? = some WState.waiting ∧
    getResult (finishSt s i t f) t = some (Except.error e) ∧
    (∀ u, u ≠ t → (finishSt s i t f).slots[u]? = s.slots[u]?) ∧
    (∀ u, u ≠ t → getResult (finishSt s i t f) u = getResult s u) := by
  have hI := inv_reachable hr
  have hiw : i < s.workers.length := (List.getElem?_eq_some_iff.1 hw).1
  have htsb := hI.running_started i t hw
  have htlt : t < s.startedBy.length := (List.getElem?_eq_some_iff.1 htsb).1
  have htsl : t < s.slots.length := by
    rw [hI.len_slots, ← hI.len_started]
    exact htlt
  have hout : outcomeOf f = SlotState.error e := by simp [outcomeOf, he]
  have hslot : (finishSt s i t f).slots[t]? = some (SlotState.error e) := by
    simp only [finishSt]
    rw [List.getElem?_set_self htsl, hout]
  have hother : ∀ u, u ≠ t → (finishSt s i t f).slots[u]? = s.slots[u]? := by
    intro u hu
    simp only [finishSt]
    exact List.getElem?_set_ne fun hh => hu hh.symm
  refine ⟨Step.finish s i t f hw hf, hslot, ?_, ?_, hother, ?_⟩
  · simp only [finishSt]
    rw [List.getElem?_set_self hiw]
  · unfold getResult
    rw [hslot]
  · intro u hu
    unfold getResult
    rw [hother u hu]

/-- C3 witness: on the 1-worker pool whose worker is running the
erroring task, finishing stores the error and `get()` re-raises it. -/
theorem C3_witness :
    getResult (finishSt erun2 0 0 errThunk) 0 = some (Except.error "boom") :=
  (C3_task_error_captured 1 erun2 0 0 errThunk "boom"
    reach_erun2 rfl rfl rfl).2.2.2.1

/-- C4: in every reachable state the pool has exactly its constructed
number of workers, at most that many tasks are `RUNNING` at once, a
task is run by at most one worker (two workers running the same task id
coincide), the queue never holds a task twice nor an already-started
task, no submitted task is lost (it is queued or started), and the
record of which worker started a task is stable under every further
step — so a task is executed at most once, by exactly one worker. -/
theorem C4_task_executed_at_most_once (n : Nat) (s s' : PState Int)
    (hr : Reachable Int n s) :
    s.workers.length = n ∧
    s.workers.countP (fun w => w.isRunning) ≤ n ∧
    (∀ (i j t : Nat), s.workers[i]? = some (WState.running t) →
      s.workers[j]? = some (WState.running t) → i = j) ∧
    s.queue.Nodup ∧
    (∀ t ∈ s.queue, s.startedBy[t]? = some none) ∧
    (∀ t, t < s.tasks.length →
      t ∈ s.queue ∨ ∃ i, s.startedBy[t]? = some (some i)) ∧
    (Step s s' → ∀ (t i : Nat), s.startedBy[t]? = some (some i) →
      s'.startedBy[t]? = some (some i)) := by
  have hI := inv_reachable hr
  have hlen := reachable_workers_length hr
  refine ⟨hlen, ?_, ?_, ?_, hI.queue_unstarted, hI.queue_or_started, ?_⟩
  · rw [← hlen]
    exact List.countP_le_length _
  · intro i j t hi hj
    have h1 := hI.running_started i t hi
    have h2 := hI.running_started j t hj
    rw [h1] at h2
    simpa using h2
  · have hp := List.chain'_iff_pairwise.1 hI.queue_sorted
    exact hp.imp Nat.ne_of_lt
  · intro hstep t i hst
    exact started_stable hI hstep t i hst

/-- C4 witness: the fully executed `main.cpp` run on 2 workers. -/
theorem C4_witness :
    run12.workers.length = 2 ∧ run12.queue.Nodup :=
  ⟨(C4_task_executed_at_most_once 2 run12 run12 reach_run12).1,
   (C4_task_executed_at_most_once 2 run12 run12 reach_run12).2.2.2.1⟩

/-- C5: the task queue is FIFO — `emplace` appends at the tail,
`front`/`pop` read and remove the head, any interleaved sequence of
pushes and pops dequeues exactly the pushed values in push order, and
in the pool the pending queue always lists task ids in strictly
increasing submission order (so a single submitter's tasks are dequeued
in submission order, the head being the least id). -/
theorem C5_queue_fifo :
    (∀ (q : StdQueue Nat) (x : Nat), (q.emplace x).items = q.items ++ [x]) ∧
    (∀ q : StdQueue Nat, q.front? = q.items.head? ∧
      q.popFront.items = q.items.tail) ∧
    (∀ ops : List (QueueOp Nat),
      (runOps ⟨[]⟩ [] ops).2 ++ (runOps ⟨[]⟩ [] ops).1.items =
        pushedValues ops) ∧
    (∀ (n : Nat) (s : PState Int), Reachable Int n s →
      s.queue.Chain' (· < ·)) := by
  refine ⟨fun q x => rfl, fun q => ⟨rfl, rfl⟩, ?_, ?_⟩
  · intro ops
    have h := runOps_spec ops ⟨[]⟩ []
    simpa using h
  · intro n s hr
    exact (inv_reachable hr).queue_sorted

/-- C5 witness: after the four submissions of the `main.cpp` scenario
the queue is `[0, 1, 2, 3]`, in submission order. -/
theorem C5_witness : run4.queue.Chain' (· < ·) :=
  C5_queue_fifo.2.2.2 2 run4 reach_run4

/-- C6: `shutdown` (the destructor) sets the stop flag and joins every
worker thread until all are `TERMINATED`; it is idempotent — a second
call is a no-op that joins no thread a second time (each thread's join
count stays 1) and hence never panics. `hfresh` says the pool's threads
have not been joined before (as after construction). -/
theorem C6_shutdown_idempotent (p : PoolCtl)
    (hfresh : ∀ th ∈ p.threads, th.joined = false ∧ th.joinCount = 0) :
    (shutdown p).stopFlag = true ∧
    (∀ th ∈ (shutdown p).threads,
      th.state = WState.terminated ∧ th.joined = true) ∧
    shutdown (shutdown p) = shutdown p ∧
    (∀ th ∈ (shutdown (shutdown p)).threads, th.joinCount = 1) := by
  have hjj : ∀ th, joinThread (joinThread th) = joinThread th := by
    intro th
    by_cases h : th.joined
    · simp [joinThread, h]
    · simp [joinThread, h]
  have hid : shutdown (shutdown p) = shutdown p := by
    show PoolCtl.mk ((p.threads.map joinThread).map joinThread) true =
      PoolCtl.mk (p.threads.map joinThread) true
    rw [List.map_map]
    congr 1
    exact List.map_congr_left fun a _ => hjj a
  refine ⟨rfl, ?_, hid, ?_⟩
  · intro th hth
    simp only [shutdown, List.mem_map] at hth
    rcases hth with ⟨a, ha, rfl⟩
    rcases hfresh a ha with ⟨hj, _⟩
    simp [joinThread, hj]
  · intro th hth
    rw [hid] at hth
    simp only [shutdown, List.mem_map] at hth
    rcases hth with ⟨a, ha, rfl⟩
    rcases hfresh a ha with ⟨hj, hc⟩
    simp [joinThread, hj, hc]

/-- C6 witness: a 1-thread pool, shut down twice. -/
theorem C6_witness :
    shutdown (shutdown (PoolCtl.mk [newThread] false)) =
      shutdown (PoolCtl.mk [newThread] false) :=
  (C6_shutdown_idempotent (PoolCtl.mk [newThread] false)
    (by
      intro th hth
      simp only [List.mem_singleton] at hth
      subst hth
      exact ⟨rfl, rfl⟩)).2.2.1

/-- C7: if spawning worker `j` fails during construction (all earlier
spawns succeeding), the constructor reports a construction error whose
clean-up record shows exactly the `j` already-started threads, each of
them joined (and terminated) before the error is reported — no
partially-started pool survives. -/
theorem C7_construction_atomic (spawnOk : Nat → Bool) (count j : Nat)
    (hj : j < count) (hfail : spawnOk j = false)
    (hmin : ∀ k, k < j → spawnOk k = true) :
    ∃ joined : List OwnedThread,
      construct spawnOk count = Except.error joined ∧
      joined.length = j ∧
      ∀ th ∈ joined, th.joined = true ∧ th.state = WState.terminated := by
  refine ⟨(List.replicate j newThread).map joinThread, ?_, by simp, ?_⟩
  · unfold construct
    rw [constructAux_fail spawnOk count 0 j [] (Nat.zero_le j) (by omega)
      hfail (fun k _ hk2 => hmin k hk2)]
    simp
  · intro th hth
    simp only [List.mem_map, List.mem_replicate] at hth
    rcases hth with ⟨a, ⟨_, rfl⟩, rfl⟩
    simp [joinThread, newThread]

/-- C7 witness: spawning fails at index 1 of 3; the single started
thread is joined and the constructor reports the error. -/
theorem C7_witness :
    ∃ joined : List OwnedThread,
      construct (fun k => k != 1) 3 = Except.error joined ∧
      joined.length = 1 ∧
      ∀ th ∈ joined, th.joined = true ∧ th.state = WState.terminated :=
  C7_construction_atomic (fun k => k != 1) 3 1 (by omega) rfl
    (by
      intro k hk
      have h0 : k = 0 := Nat.lt_one_iff.1 hk
      subst h0
      rfl)

/-- C8 counterexample: the declared default argument of the constructor
is `std::thread::hardware_concurrency()` unclamped, and the constructor
spawns exactly that many workers; on a platform reporting 0 the pool is
built with 0 workers, refuting the claim that the defaulted worker
count is never less than 1. -/
theorem C8_counterexample :
    construct (fun _ => true) (defaultThreadCount 0) = Except.ok [] ∧
    ¬ ∃ l : List OwnedThread,
        construct (fun _ => true) (defaultThreadCount 0) = Except.ok l ∧
        1 ≤ l.length := by
  constructor
  · rfl
  · rintro ⟨l, hl, h1⟩
    have hl0 : ([] : List OwnedThread) = l := by
      injection hl
    rw [← hl0] at h1
    simp at h1

/-- C8 amended: the constructor spawns exactly `thread_count` workers,
and an unspecified `thread_count` defaults to the platform's reported
hardware concurrency with no minimum applied (a platform reporting 0
yields a pool with 0 workers). -/
theorem C8_spawns_exact_count (n hc : Nat) :
    defaultThreadCount hc = hc ∧
    (∃ l : List OwnedThread,
      construct (fun _ => true) n = Except.ok l ∧ l.length = n) ∧
    (init Int (defaultThreadCount hc)).workers.length = hc := by
  refine ⟨rfl, ⟨List.replicate n newThread, ?_, by simp⟩, ?_⟩
  · unfold construct
    rw [constructAux_ok (fun _ => true) (fun k => rfl) n 0 []]
    simp
  · simp [init, defaultThreadCount]

/-- C10: the capture list of the lambda built by `execute` moves from
the callable unconditionally — even when the caller passed an lvalue,
the caller's callable object is left moved-from — while each argument
is captured by value into the tuple: an lvalue argument is copied (the
caller's object is returned unchanged) and the captured copies carry
the original payloads. -/
theorem C10_execute_moves_callable (fcat : ValueCategory)
    (f : CppObject Int) (args : List (ValueCategory × CppObject Int)) :
    (executeCapture fcat f args).callerF.movedFrom = true ∧
    (executeCapture fcat f args).capturedF.val = f.val ∧
    (∀ (k : Nat) (cat : ValueCategory) (a : CppObject Int),
      args[k]? = some (cat, a) →
      (executeCapture fcat f args).capturedArgs[k]? =
          some (CppObject.mk a.val false) ∧
        (cat = ValueCategory.lvalue →
          (executeCapture fcat f args).callerArgs[k]? = some a)) := by
  refine ⟨rfl, rfl, ?_⟩
  intro k cat a hk
  constructor
  · simp only [executeCapture, List.getElem?_map, hk]
    cases cat <;> simp [forwardInit]
  · intro hcat
    subst hcat
    simp only [executeCapture, List.getElem?_map, hk]
    simp [forwardInit]

/-- C10 witness: one lvalue callable and one lvalue argument — the
callable is moved from, the argument is merely copied. -/
theorem C10_witness :
    (executeCapture ValueCategory.lvalue (CppObject.mk (7 : Int) false)
      [(ValueCategory.lvalue, CppObject.mk (1 : Int) false)]).callerF.movedFrom
        = true ∧
    (executeCapture ValueCategory.lvalue (CppObject.mk (7 : Int) false)
      [(ValueCategory.lvalue, CppObject.mk (1 : Int) false)]).callerArgs[0]? =
        some (CppObject.mk (1 : Int) false) :=
  ⟨(C10_execute_moves_callable ValueCategory.lvalue (CppObject.mk 7 false)
      [(ValueCategory.lvalue, CppObject.mk 1 false)]).1,
   ((C10_execute_moves_callable ValueCategory.lvalue (CppObject.mk 7 false)
      [(ValueCategory.lvalue, CppObject.mk 1 false)]).2.2 0
      ValueCategory.lvalue (CppObject.mk 1 false) rfl).2 rfl⟩

end ThreadPool
